import Mathlib

/-!
Verification of the ScriptJelly client-side DOM utility library.

Each JavaScript source file is shallowly embedded as a group of Lean
definitions inside its own namespace.  Host ("browser") capabilities that
the code feature-detects are modelled as Boolean flags; the live document
tree is modelled as explicit data (lists of children, rose trees), and the
stateful DOM mutations become pure state-passing functions.  Exceptions
become an explicit error type.
-/

/-- The kinds of exception the library throws. -/
inductive JsError where
  | typeError
  | rangeError
  | referenceError
deriving DecidableEq

namespace RemoveChildren

/-!
Embedding of the removeChildren function (src/unnamed/part_000).

A child Node is represented by whether it is an Element plus an identity
label; the parent Node carries one Boolean per host property that the
code probes with the "in" operator, together with its list of children.
-/

/-- A child Node of the parent: an Element flag plus an identity label. -/
structure ChildNode where
  isElem : Bool
  label : Nat
deriving DecidableEq

/-- The parent Node: feature flags for every host property probed by the
code, plus the list of child Nodes. -/
structure HostNode where
  hasReplaceChildren : Bool
  hasTextContent : Bool
  hasInnerHTML : Bool
  hasFirstChild : Bool
  hasLastChild : Bool
  hasNextSibling : Bool
  hasPreviousSibling : Bool
  hasChildNodes : Bool
  hasChildElementCount : Bool
  hasChildrenProp : Bool
  children : List ChildNode
deriving DecidableEq

/-- Loop of removeAll branch 4: while (node.firstChild)
node.removeChild(node.lastChild); removes the last child until none
remains. -/
def whileFirstRemoveLast : List ChildNode → List ChildNode
  | [] => []
  | x :: xs => whileFirstRemoveLast ((x :: xs).dropLast)
termination_by l => l.length
decreasing_by simp

/-- Loop of removeAll branch 5: while (childNodes.length)
node.removeChild(childNodes[childNodes.length - 1]); removes the last
entry of the live childNodes list until it is empty. -/
def whileChildNodesRemoveLast : List ChildNode → List ChildNode
  | [] => []
  | x :: xs => whileChildNodesRemoveLast ((x :: xs).dropLast)
termination_by l => l.length
decreasing_by simp

/-- Loop of removeAllForwards branch 1: while (node.lastChild)
node.removeChild(node.firstChild); removes the first child until none
remains. -/
def whileLastRemoveFirst (l : List ChildNode) : List ChildNode :=
  match l with
  | [] => []
  | _ :: rest => whileLastRemoveFirst rest

/-- Loop of removeAllForwards branch 2: while (childNodes.length)
node.removeChild(childNodes[0]). -/
def whileChildNodesRemoveFirst (l : List ChildNode) : List ChildNode :=
  match l with
  | [] => []
  | _ :: rest => whileChildNodesRemoveFirst rest

/-- The five child-removal mechanisms probed by removeAll, in source
order. -/
inductive RemoveMech where
  | replaceChildrenMech
  | textContentMech
  | innerHTMLMech
  | firstLastMech
  | childNodesMech
deriving DecidableEq

/-- Whether a given mechanism exists on the node, per the "in" probes of
the source. -/
def supportsMech (node : HostNode) : RemoveMech → Bool
  | .replaceChildrenMech => node.hasReplaceChildren
  | .textContentMech => node.hasTextContent
  | .innerHTMLMech => node.hasInnerHTML
  | .firstLastMech => node.hasFirstChild && node.hasLastChild
  | .childNodesMech => node.hasChildNodes

/-- The fixed probing order of removeAll. -/
def mechOrder : List RemoveMech :=
  [.replaceChildrenMech, .textContentMech, .innerHTMLMech,
   .firstLastMech, .childNodesMech]

/-- Result of removeAll: the post-state of the node, the returned
Boolean, and (as an execution trace) which mechanism ran. -/
structure RemoveAllResult where
  state : HostNode
  ok : Bool
  mech : Option RemoveMech
deriving DecidableEq

/-- removeAll: probes replaceChildren, textContent, innerHTML, the
firstChild/lastChild loop and the childNodes loop in order, clearing the
children with the first supported one.  Assigning an empty string to
textContent or innerHTML replaces all children with nothing. -/
def removeAll (node : HostNode) : RemoveAllResult :=
  if node.hasReplaceChildren then
    ⟨{ node with children := [] }, true, some .replaceChildrenMech⟩
  else if node.hasTextContent then
    ⟨{ node with children := [] }, true, some .textContentMech⟩
  else if node.hasInnerHTML then
    ⟨{ node with children := [] }, true, some .innerHTMLMech⟩
  else if node.hasFirstChild && node.hasLastChild then
    ⟨{ node with children := whileFirstRemoveLast node.children }, true,
      some .firstLastMech⟩
  else if node.hasChildNodes then
    ⟨{ node with children := whileChildNodesRemoveLast node.children }, true,
      some .childNodesMech⟩
  else
    ⟨node, false, none⟩

/-- removeAllForwards: firstChild/lastChild loop removing the first
child, then the childNodes loop removing entry 0. -/
def removeAllForwards (node : HostNode) : HostNode × Bool :=
  if node.hasFirstChild && node.hasLastChild then
    ({ node with children := whileLastRemoveFirst node.children }, true)
  else if node.hasChildNodes then
    ({ node with children := whileChildNodesRemoveFirst node.children }, true)
  else
    (node, false)

/-- removeAllBackwards: firstChild/lastChild loop removing the last
child, then the childNodes loop removing the last entry. -/
def removeAllBackwards (node : HostNode) : HostNode × Bool :=
  if node.hasFirstChild && node.hasLastChild then
    ({ node with children := whileFirstRemoveLast node.children }, true)
  else if node.hasChildNodes then
    ({ node with children := whileChildNodesRemoveLast node.children }, true)
  else
    (node, false)

/-- hasChildElements: childElementCount, then children.length, else
defaults to true. -/
def hasChildElements (node : HostNode) : Bool :=
  if node.hasChildElementCount then
    node.children.countP (fun c => c.isElem) != 0
  else if node.hasChildrenProp then
    (node.children.filter (fun c => c.isElem)).length != 0
  else
    true

/-- Traversal loop of elForBySibl: walk from firstChild via nextSibling,
removing each Element child and keeping the others. -/
def elForBySiblLoop (l : List ChildNode) : List ChildNode :=
  match l with
  | [] => []
  | c :: rest =>
    if c.isElem then elForBySiblLoop rest
    else c :: elForBySiblLoop rest

/-- Traversal loop of elBackBySibl: walk from lastChild via
previousSibling, removing each Element child and keeping the others. -/
def elBackBySiblLoop (l : List ChildNode) : List ChildNode :=
  match h : l.getLast? with
  | none => []
  | some c =>
    if c.isElem then elBackBySiblLoop l.dropLast
    else elBackBySiblLoop l.dropLast ++ [c]
termination_by l.length
decreasing_by
  all_goals
    cases l with
    | nil => simp at h
    | cons x xs => simp

/-- Loop of elForByChildNodes: index starts at 0; an Element child at the
index is removed (the live list reindexes), otherwise the index
advances. -/
def elForByChildNodesLoop (l : List ChildNode) (index : Nat) : List ChildNode :=
  if h : index < l.length then
    if (l.get ⟨index, h⟩).isElem then
      elForByChildNodesLoop (l.eraseIdx index) index
    else
      elForByChildNodesLoop l (index + 1)
  else
    l
termination_by l.length - index
decreasing_by
  · rw [List.length_eraseIdx]
    simp [h]
    omega
  · omega

/-- Loop of elBackByChildNodes: index starts at childNodes.length - 1 and
decrements to 0; an Element entry at the index is removed.  The second
argument is index + 1, so 0 encodes the exit index -1. -/
def elBackByChildNodesLoop : List ChildNode → Nat → List ChildNode
  | l, 0 => l
  | l, i + 1 =>
    match l.get? i with
    | some c =>
      if c.isElem then elBackByChildNodesLoop (l.eraseIdx i) i
      else elBackByChildNodesLoop l i
    | none => elBackByChildNodesLoop l i

/-- elForBySibl: early exit when no Element child exists, then the
firstChild/nextSibling traversal if supported. -/
def elForBySibl (node : HostNode) : HostNode × Bool :=
  if !hasChildElements node then
    (node, true)
  else if node.hasFirstChild && node.hasNextSibling then
    ({ node with children := elForBySiblLoop node.children }, true)
  else
    (node, false)

/-- elBackBySibl: early exit when no Element child exists, then the
lastChild/previousSibling traversal if supported. -/
def elBackBySibl (node : HostNode) : HostNode × Bool :=
  if !hasChildElements node then
    (node, true)
  else if node.hasLastChild && node.hasPreviousSibling then
    ({ node with children := elBackBySiblLoop node.children }, true)
  else
    (node, false)

/-- elForByChildNodes: the ascending childNodes loop if supported. -/
def elForByChildNodes (node : HostNode) : HostNode × Bool :=
  if node.hasChildNodes then
    ({ node with children := elForByChildNodesLoop node.children 0 }, true)
  else
    (node, false)

/-- elBackByChildNodes: the descending childNodes loop if supported. -/
def elBackByChildNodes (node : HostNode) : HostNode × Bool :=
  if node.hasChildNodes then
    ({ node with
        children := elBackByChildNodesLoop node.children node.children.length },
      true)
  else
    (node, false)

/-- removeElements: elBackBySibl, elForBySibl, elBackByChildNodes tried
in order, threading the node state. -/
def removeElements (node : HostNode) : HostNode × Bool :=
  let r1 := elBackBySibl node
  if r1.2 then r1 else
  let r2 := elForBySibl r1.1
  if r2.2 then r2 else
  let r3 := elBackByChildNodes r2.1
  if r3.2 then r3 else (r3.1, false)

/-- removeElForwards: elForBySibl then elForByChildNodes. -/
def removeElForwards (node : HostNode) : HostNode × Bool :=
  let r1 := elForBySibl node
  if r1.2 then r1 else
  let r2 := elForByChildNodes r1.1
  if r2.2 then r2 else (r2.1, false)

/-- removeElBackwards: elBackBySibl then elBackByChildNodes. -/
def removeElBackwards (node : HostNode) : HostNode × Bool :=
  let r1 := elBackBySibl node
  if r1.2 then r1 else
  let r2 := elBackByChildNodes r1.1
  if r2.2 then r2 else (r2.1, false)

/-- tryMethods: dispatch on the forwards argument (undefined modelled by
none, otherwise its truthiness) and the truthiness of removeElements. -/
def tryMethods (node : HostNode) (removeElementsArg : Bool)
    (forwards : Option Bool) : HostNode × Bool :=
  match forwards with
  | none =>
    if removeElementsArg then removeElements node
    else ((removeAll node).state, (removeAll node).ok)
  | some fw =>
    if fw then
      if removeElementsArg then removeElForwards node
      else removeAllForwards node
    else
      if removeElementsArg then removeElBackwards node
      else removeAllBackwards node

/-- A JavaScript value passed to the node parameter: either a Node object
or some non-Node value (identified by a label). -/
inductive JSVal where
  | node (n : HostNode)
  | nonNode (label : Nat)
deriving DecidableEq

/-- isNode: with the Node interface defined, obj instanceof Node. -/
def isNode : JSVal → Bool
  | .node _ => true
  | .nonNode _ => false

/-- removeChildren: checkParameter throws a TypeError for a non-Node
value before any removal method runs; otherwise tryMethods runs on the
node.  The first component is the post-state of the argument value. -/
def removeChildren (v : JSVal) (removeElementsArg : Bool)
    (forwards : Option Bool) : JSVal × Except JsError Bool :=
  match v with
  | .node n =>
    let r := tryMethods n removeElementsArg forwards
    (JSVal.node r.1, Except.ok r.2)
  | .nonNode t => (JSVal.nonNode t, Except.error JsError.typeError)

/-- Post-state of the replaceChildren() branch. -/
def replaceChildrenBranch (n : HostNode) : HostNode :=
  { n with children := [] }

/-- Post-state of the firstChild/lastChild-driven forward removal loop. -/
def siblForwardBranch (n : HostNode) : HostNode :=
  { n with children := whileLastRemoveFirst n.children }

/-- Post-state of the firstChild/lastChild-driven backward removal loop. -/
def siblBackwardBranch (n : HostNode) : HostNode :=
  { n with children := whileFirstRemoveLast n.children }

/-- Post-state of the childNodes-driven forward removal loop. -/
def childNodesForwardBranch (n : HostNode) : HostNode :=
  { n with children := whileChildNodesRemoveFirst n.children }

/-- Post-state of the childNodes-driven backward removal loop. -/
def childNodesBackwardBranch (n : HostNode) : HostNode :=
  { n with children := whileChildNodesRemoveLast n.children }

/-- All fields of a node other than its children. -/
def frameOf (n : HostNode) :
    Bool × Bool × Bool × Bool × Bool × Bool × Bool × Bool × Bool × Bool :=
  (n.hasReplaceChildren, n.hasTextContent, n.hasInnerHTML, n.hasFirstChild,
   n.hasLastChild, n.hasNextSibling, n.hasPreviousSibling, n.hasChildNodes,
   n.hasChildElementCount, n.hasChildrenProp)

theorem whileFirstRemoveLast_nil (l : List ChildNode) :
    whileFirstRemoveLast l = [] := by
  induction l using whileFirstRemoveLast.induct with
  | case1 => rw [whileFirstRemoveLast]
  | case2 x xs ih => rw [whileFirstRemoveLast]; exact ih

theorem whileChildNodesRemoveLast_nil (l : List ChildNode) :
    whileChildNodesRemoveLast l = [] := by
  induction l using whileChildNodesRemoveLast.induct with
  | case1 => rw [whileChildNodesRemoveLast]
  | case2 x xs ih => rw [whileChildNodesRemoveLast]; exact ih

theorem whileLastRemoveFirst_nil (l : List ChildNode) :
    whileLastRemoveFirst l = [] := by
  induction l with
  | nil => rfl
  | cons x xs ih => rw [whileLastRemoveFirst]; exact ih

theorem whileChildNodesRemoveFirst_nil (l : List ChildNode) :
    whileChildNodesRemoveFirst l = [] := by
  induction l with
  | nil => rfl
  | cons x xs ih => rw [whileChildNodesRemoveFirst]; exact ih

theorem elForBySiblLoop_eq_filter (l : List ChildNode) :
    elForBySiblLoop l = l.filter (fun c => !c.isElem) := by
  induction l with
  | nil => rfl
  | cons c rest ih =>
    cases hc : c.isElem <;> simp [elForBySiblLoop, hc, ih, List.filter_cons]

theorem elBackBySiblLoop_nil : elBackBySiblLoop [] = [] := by
  rw [elBackBySiblLoop]
  simp

theorem elBackBySiblLoop_concat (ys : List ChildNode) (c : ChildNode) :
    elBackBySiblLoop (ys ++ [c]) =
      if c.isElem then elBackBySiblLoop ys
      else elBackBySiblLoop ys ++ [c] := by
  rw [elBackBySiblLoop]
  split
  · rename_i heq
    rw [List.getLast?_concat] at heq
    cases heq
  · rename_i c1 heq
    rw [List.getLast?_concat] at heq
    cases heq
    simp

theorem elBackBySiblLoop_eq_filter (l : List ChildNode) :
    elBackBySiblLoop l = l.filter (fun c => !c.isElem) := by
  induction l using List.reverseRecOn with
  | nil => exact elBackBySiblLoop_nil
  | append_singleton ys c ih =>
    rw [elBackBySiblLoop_concat]
    cases hc : c.isElem <;> simp [hc, ih, List.filter_append, List.filter_cons]

theorem elForByChildNodesLoop_eq (l : List ChildNode) (i : Nat) :
    elForByChildNodesLoop l i =
      l.take i ++ (l.drop i).filter (fun c => !c.isElem) := by
  induction l, i using elForByChildNodesLoop.induct with
  | case1 l i h hc ih =>
    rw [elForByChildNodesLoop]
    simp only [h, dif_pos, hc, if_pos]
    rw [ih]
    have hT : (l.eraseIdx i).take i = l.take i := by
      rw [List.eraseIdx_eq_take_drop_succ, List.take_append_of_le_length,
        List.take_take]
      · simp
      · simp; omega
    have hD : (l.eraseIdx i).drop i = l.drop (i + 1) := by
      rw [List.eraseIdx_eq_take_drop_succ, List.drop_append_of_le_length,
        List.drop_take]
      · simp
      · simp; omega
    rw [hT, hD, List.drop_eq_getElem_cons h, List.filter_cons]
    simp [List.get_eq_getElem] at hc
    simp [hc]
  | case2 l i h hc ih =>
    rw [elForByChildNodesLoop]
    simp only [h, dif_pos, hc, if_neg, Bool.false_eq_true, not_false_iff]
    rw [ih]
    simp only [List.get_eq_getElem, Bool.not_eq_true] at hc
    conv_rhs => rw [List.drop_eq_getElem_cons h, List.filter_cons]
    conv_lhs => rw [List.take_succ, List.getElem?_eq_getElem h]
    simp only [hc, Bool.not_false, if_true, Option.toList_some,
      List.append_assoc, List.singleton_append]
  | case3 l i h =>
    rw [elForByChildNodesLoop]
    have hle : l.length ≤ i := by omega
    simp [h, List.take_of_length_le hle, List.drop_of_length_le hle]

theorem elBackByChildNodesLoop_eq (i : Nat) (l : List ChildNode)
    (hi : i ≤ l.length) :
    elBackByChildNodesLoop l i =
      (l.take i).filter (fun c => !c.isElem) ++ l.drop i := by
  induction i generalizing l with
  | zero => simp [elBackByChildNodesLoop]
  | succ i ih =>
    have hlt : i < l.length := by omega
    have hget : l.get? i = some (l.get ⟨i, hlt⟩) := by
      simp [List.get?_eq_getElem?, List.getElem?_eq_getElem hlt]
    rw [elBackByChildNodesLoop, hget]
    simp only
    cases hc : (l.get ⟨i, hlt⟩).isElem with
    | true =>
      simp only [if_pos]
      rw [ih]
      · have hT : (l.eraseIdx i).take i = l.take i := by
          rw [List.eraseIdx_eq_take_drop_succ, List.take_append_of_le_length,
            List.take_take]
          · simp
          · simp; omega
        have hD : (l.eraseIdx i).drop i = l.drop (i + 1) := by
          rw [List.eraseIdx_eq_take_drop_succ, List.drop_append_of_le_length,
            List.drop_take]
          · simp
          · simp; omega
        rw [hT, hD, List.take_succ, List.filter_append]
        simp [List.get_eq_getElem] at hc
        simp [hc, List.getElem?_eq_getElem hlt, List.filter_cons]
      · rw [List.length_eraseIdx]
        simp [hlt]
        omega
    | false =>
      simp only [Bool.false_eq_true, if_neg, not_false_iff]
      rw [ih l (by omega)]
      rw [List.take_succ, List.filter_append, List.drop_eq_getElem_cons hlt]
      simp [List.get_eq_getElem] at hc
      simp [hc, List.getElem?_eq_getElem hlt, List.filter_cons]

theorem elBackByChildNodesLoop_eq_filter (l : List ChildNode) :
    elBackByChildNodesLoop l l.length = l.filter (fun c => !c.isElem) := by
  rw [elBackByChildNodesLoop_eq l.length l (le_refl _)]
  simp

theorem elForByChildNodesLoop_eq_filter (l : List ChildNode) :
    elForByChildNodesLoop l 0 = l.filter (fun c => !c.isElem) := by
  rw [elForByChildNodesLoop_eq]
  simp

theorem hasChildElements_false_filter (n : HostNode)
    (h : hasChildElements n = false) :
    n.children.filter (fun c => !c.isElem) = n.children := by
  rw [List.filter_eq_self]
  intro a ha
  unfold hasChildElements at h
  by_cases h1 : n.hasChildElementCount = true
  · simp [h1] at h
    simpa using h a ha
  · simp [h1] at h
    by_cases h2 : n.hasChildrenProp = true
    · simp [h2] at h
      simpa using h a ha
    · simp [h2] at h

theorem elForBySibl_spec (n : HostNode) :
    (elForBySibl n).1 =
      (if (elForBySibl n).2 then
        { n with children := n.children.filter (fun c => !c.isElem) }
      else n) := by
  unfold elForBySibl
  by_cases h : hasChildElements n = false
  · simp [h, hasChildElements_false_filter n h]
  · rw [Bool.not_eq_false] at h
    by_cases h2 : (n.hasFirstChild && n.hasNextSibling) = true
    · simp [h, h2, elForBySiblLoop_eq_filter]
    · simp [h, h2]

theorem elBackBySibl_spec (n : HostNode) :
    (elBackBySibl n).1 =
      (if (elBackBySibl n).2 then
        { n with children := n.children.filter (fun c => !c.isElem) }
      else n) := by
  unfold elBackBySibl
  by_cases h : hasChildElements n = false
  · simp [h, hasChildElements_false_filter n h]
  · rw [Bool.not_eq_false] at h
    by_cases h2 : (n.hasLastChild && n.hasPreviousSibling) = true
    · simp [h, h2, elBackBySiblLoop_eq_filter]
    · simp [h, h2]

theorem elForByChildNodes_spec (n : HostNode) :
    (elForByChildNodes n).1 =
      (if (elForByChildNodes n).2 then
        { n with children := n.children.filter (fun c => !c.isElem) }
      else n) := by
  unfold elForByChildNodes
  by_cases h : n.hasChildNodes = true
  · simp [h, elForByChildNodesLoop_eq_filter]
  · simp [h]

theorem elBackByChildNodes_spec (n : HostNode) :
    (elBackByChildNodes n).1 =
      (if (elBackByChildNodes n).2 then
        { n with children := n.children.filter (fun c => !c.isElem) }
      else n) := by
  unfold elBackByChildNodes
  by_cases h : n.hasChildNodes = true
  · simp [h, elBackByChildNodesLoop_eq_filter]
  · simp [h]

theorem removeElements_spec (n : HostNode) :
    (removeElements n).1 =
      (if (removeElements n).2 then
        { n with children := n.children.filter (fun c => !c.isElem) }
      else n) := by
  unfold removeElements
  have h1 := elBackBySibl_spec n
  by_cases hb1 : (elBackBySibl n).2 = true
  · simp [hb1] at h1 ⊢
    exact h1
  · rw [Bool.not_eq_true] at hb1
    simp [hb1] at h1
    simp only [hb1, h1]
    have h2 := elForBySibl_spec n
    by_cases hb2 : (elForBySibl n).2 = true
    · simp [hb2] at h2 ⊢
      exact h2
    · rw [Bool.not_eq_true] at hb2
      simp [hb2] at h2
      simp only [hb2, h2]
      have h3 := elForByChildNodes_spec n
      have h4 := elBackByChildNodes_spec n
      by_cases hb3 : (elBackByChildNodes n).2 = true
      · simp [hb3] at h4 ⊢
        exact h4
      · rw [Bool.not_eq_true] at hb3
        simp [hb3] at h4
        simp [hb3, h4]

theorem removeElForwards_spec (n : HostNode) :
    (removeElForwards n).1 =
      (if (removeElForwards n).2 then
        { n with children := n.children.filter (fun c => !c.isElem) }
      else n) := by
  unfold removeElForwards
  have h1 := elForBySibl_spec n
  by_cases hb1 : (elForBySibl n).2 = true
  · simp [hb1] at h1 ⊢
    exact h1
  · rw [Bool.not_eq_true] at hb1
    simp [hb1] at h1
    simp only [hb1, h1]
    have h2 := elForByChildNodes_spec n
    by_cases hb2 : (elForByChildNodes n).2 = true
    · simp [hb2] at h2 ⊢
      exact h2
    · rw [Bool.not_eq_true] at hb2
      simp [hb2] at h2
      simp [hb2, h2]

theorem removeElBackwards_spec (n : HostNode) :
    (removeElBackwards n).1 =
      (if (removeElBackwards n).2 then
        { n with children := n.children.filter (fun c => !c.isElem) }
      else n) := by
  unfold removeElBackwards
  have h1 := elBackBySibl_spec n
  by_cases hb1 : (elBackBySibl n).2 = true
  · simp [hb1] at h1 ⊢
    exact h1
  · rw [Bool.not_eq_true] at hb1
    simp [hb1] at h1
    simp only [hb1, h1]
    have h2 := elBackByChildNodes_spec n
    by_cases hb2 : (elBackByChildNodes n).2 = true
    · simp [hb2] at h2 ⊢
      exact h2
    · rw [Bool.not_eq_true] at hb2
      simp [hb2] at h2
      simp [hb2, h2]

/-- A sample parent Node used to instantiate theorems with hypotheses. -/
def sampleNode : HostNode :=
  ⟨true, true, true, true, true, true, true, true, true, true,
    [⟨true, 0⟩, ⟨false, 1⟩, ⟨true, 2⟩]⟩

end RemoveChildren

open RemoveChildren in
/-- C1: with removeElements falsy and forwards undefined, removeChildren
runs removeAll, which probes replaceChildren, textContent, innerHTML, the
firstChild/lastChild removal loop and the childNodes removal loop in that
fixed order, removes all children with the first mechanism that exists on
the node and returns true, and returns false exactly when none of the
five mechanisms exists. -/
theorem removeChildren_default_probes_in_fixed_order (n : HostNode) :
    removeChildren (JSVal.node n) false none =
      (JSVal.node (removeAll n).state, Except.ok (removeAll n).ok) ∧
    (removeAll n).mech = mechOrder.find? (supportsMech n) ∧
    (removeAll n).ok = mechOrder.any (supportsMech n) ∧
    (removeAll n).state =
      (if (removeAll n).ok then { n with children := [] } else n) := by
  obtain ⟨f1, f2, f3, f4, f5, f6, f7, f8, f9, f10, cs⟩ := n
  refine ⟨rfl, ?_, ?_, ?_⟩ <;>
    cases f1 <;> cases f2 <;> cases f3 <;> cases f4 <;> cases f5 <;> cases f8 <;>
      simp [removeAll, mechOrder, supportsMech, List.find?,
        whileFirstRemoveLast_nil, whileChildNodesRemoveLast_nil]

open RemoveChildren in
/-- C2: on a parent Node where both the modern removal mechanism
(replaceChildren) and the legacy ones (firstChild/lastChild and
childNodes with removeChild) are available, every
remove-one-child-until-empty loop, whether driven by firstChild/lastChild
or by the childNodes list and whether forwards or backwards, produces the
same final state as a single replaceChildren() call: zero children and
all other node fields unchanged. -/
theorem removal_fallbacks_post_state_equivalent (n : HostNode)
    (hModern : n.hasReplaceChildren = true)
    (hFirst : n.hasFirstChild = true) (hLast : n.hasLastChild = true)
    (hChildNodes : n.hasChildNodes = true) :
    siblForwardBranch n = replaceChildrenBranch n ∧
    siblBackwardBranch n = replaceChildrenBranch n ∧
    childNodesForwardBranch n = replaceChildrenBranch n ∧
    childNodesBackwardBranch n = replaceChildrenBranch n ∧
    removeAllForwards n = (replaceChildrenBranch n, true) ∧
    removeAllBackwards n = (replaceChildrenBranch n, true) ∧
    (replaceChildrenBranch n).children = [] ∧
    frameOf (replaceChildrenBranch n) = frameOf n := by
  refine ⟨?_, ?_, ?_, ?_, ?_, ?_, rfl, rfl⟩ <;>
    simp [siblForwardBranch, siblBackwardBranch, childNodesForwardBranch,
      childNodesBackwardBranch, replaceChildrenBranch, removeAllForwards,
      removeAllBackwards, hFirst, hLast,
      whileFirstRemoveLast_nil, whileChildNodesRemoveLast_nil,
      whileLastRemoveFirst_nil, whileChildNodesRemoveFirst_nil]

open RemoveChildren in
/-- Witness for C2 at a concrete node with all mechanisms available. -/
theorem removal_fallbacks_post_state_equivalent_witness :
    sampleNode.hasReplaceChildren = true ∧
    sampleNode.hasFirstChild = true ∧
    sampleNode.hasLastChild = true ∧
    sampleNode.hasChildNodes = true ∧
    (siblForwardBranch sampleNode = replaceChildrenBranch sampleNode ∧
     siblBackwardBranch sampleNode = replaceChildrenBranch sampleNode ∧
     childNodesForwardBranch sampleNode = replaceChildrenBranch sampleNode ∧
     childNodesBackwardBranch sampleNode = replaceChildrenBranch sampleNode ∧
     removeAllForwards sampleNode = (replaceChildrenBranch sampleNode, true) ∧
     removeAllBackwards sampleNode = (replaceChildrenBranch sampleNode, true) ∧
     (replaceChildrenBranch sampleNode).children = [] ∧
     frameOf (replaceChildrenBranch sampleNode) = frameOf sampleNode) :=
  ⟨rfl, rfl, rfl, rfl,
    removal_fallbacks_post_state_equivalent sampleNode rfl rfl rfl rfl⟩

open RemoveChildren in
/-- C5: removeChildren throws a TypeError exactly when the value passed
to the node parameter is not a Node object, and on a throw the argument
value is unchanged, because the parameter check runs before any removal
method. -/
theorem removeChildren_typeError_iff_non_node (v : JSVal) (re : Bool)
    (fw : Option Bool) :
    ((removeChildren v re fw).2 = Except.error JsError.typeError ↔
      isNode v = false) ∧
    (isNode v = false →
      removeChildren v re fw = (v, Except.error JsError.typeError)) := by
  cases v <;> simp [removeChildren, isNode]

open RemoveChildren in
/-- Witness for C5 at a concrete non-Node input. -/
theorem removeChildren_typeError_iff_non_node_witness :
    isNode (JSVal.nonNode 0) = false ∧
    removeChildren (JSVal.nonNode 0) false none =
      (JSVal.nonNode 0, Except.error JsError.typeError) :=
  ⟨rfl,
    (removeChildren_typeError_iff_non_node (JSVal.nonNode 0) false none).2 rfl⟩

open RemoveChildren in
/-- C10: with removeElements truthy, each fallback branch removes exactly
the Element children: every traversal loop leaves precisely the
non-Element children in their original relative order, and whenever the
dispatcher reports success the parent holds exactly its non-Element
children, otherwise it is untouched. -/
theorem removeElements_removes_exactly_elements (n : HostNode)
    (fw : Option Bool) :
    elForBySiblLoop n.children = n.children.filter (fun c => !c.isElem) ∧
    elBackBySiblLoop n.children = n.children.filter (fun c => !c.isElem) ∧
    elBackByChildNodesLoop n.children n.children.length =
      n.children.filter (fun c => !c.isElem) ∧
    elForByChildNodesLoop n.children 0 =
      n.children.filter (fun c => !c.isElem) ∧
    (tryMethods n true fw).1 =
      (if (tryMethods n true fw).2 then
        { n with children := n.children.filter (fun c => !c.isElem) }
      else n) := by
  refine ⟨elForBySiblLoop_eq_filter _, elBackBySiblLoop_eq_filter _,
    elBackByChildNodesLoop_eq_filter _, elForByChildNodesLoop_eq_filter _, ?_⟩
  cases fw with
  | none => simpa [tryMethods] using removeElements_spec n
  | some b =>
    cases b
    · simpa [tryMethods] using removeElBackwards_spec n
    · simpa [tryMethods] using removeElForwards_spec n

namespace GetAllComments

/-!
Embedding of the getAllComments function (src/comment/GetAllComments.js).

The document tree is a rose tree; each node records whether it is a
Comment, an identity label, and its childNodes list.  The validity check
(isComment, optionally combined with the search test) is an arbitrary
Boolean predicate on nodes.
-/

/-- A node of the document tree: Comment flag, identity label,
childNodes. -/
inductive DomTree where
  | mk (isComment : Bool) (label : Nat) (children : List DomTree)

/-- The childNodes list of a node. -/
def DomTree.children : DomTree → List DomTree
  | .mk _ _ cs => cs

theorem DomTree.sizeOf_children_lt (t : DomTree) :
    sizeOf t.children < sizeOf t := by
  cases t with
  | mk b n cs =>
    simp only [DomTree.children, DomTree.mk.sizeOf_spec]
    omega

/-- Recursive loop of bySiblingTraversal: walk a sibling list from the
firstChild; a valid node is pushed, otherwise a node with a firstChild is
recursed into. -/
def bySiblingLoop (valid : DomTree → Bool) : List DomTree → List DomTree
  | [] => []
  | c :: rest =>
    if valid c then c :: bySiblingLoop valid rest
    else if !c.children.isEmpty then
      bySiblingLoop valid c.children ++ bySiblingLoop valid rest
    else bySiblingLoop valid rest
termination_by l => sizeOf l
decreasing_by
  all_goals
    (have h := DomTree.sizeOf_children_lt c
     simp only [List.cons.sizeOf_spec]
     omega)

/-- bySiblingTraversal: start at the firstChild of the parent. -/
def bySiblingTraversal (valid : DomTree → Bool) (nodeParent : DomTree) :
    List DomTree :=
  bySiblingLoop valid nodeParent.children

/-- Recursive loop of childNodesTraversal: iterate the childNodes list by
index; a valid node is pushed, otherwise a node for which hasChildFn
holds is recursed into. -/
def childNodesLoop (valid : DomTree → Bool) (hasChildFn : DomTree → Bool) :
    List DomTree → List DomTree
  | [] => []
  | c :: rest =>
    if valid c then c :: childNodesLoop valid hasChildFn rest
    else if hasChildFn c then
      childNodesLoop valid hasChildFn c.children ++
        childNodesLoop valid hasChildFn rest
    else childNodesLoop valid hasChildFn rest
termination_by l => sizeOf l
decreasing_by
  all_goals
    (have h := DomTree.sizeOf_children_lt c
     simp only [List.cons.sizeOf_spec]
     omega)

/-- childNodesTraversal: iterate the childNodes of the parent. -/
def childNodesTraversal (valid : DomTree → Bool) (hasChildFn : DomTree → Bool)
    (nodeParent : DomTree) : List DomTree :=
  childNodesLoop valid hasChildFn nodeParent.children

/-- The hasChildNodes() variant of the hasChildFn closure. -/
def hasChildNodesMethod (t : DomTree) : Bool :=
  !t.children.isEmpty

/-- The childNodes.length variant of the hasChildFn closure. -/
def childNodesLengthTest (t : DomTree) : Bool :=
  t.children.length != 0

theorem childNodesLengthTest_eq (t : DomTree) :
    childNodesLengthTest t = !t.children.isEmpty := by
  cases h : t.children <;> simp [childNodesLengthTest, h]

theorem childNodesLoop_eq_bySiblingLoop (valid : DomTree → Bool)
    (hasChildFn : DomTree → Bool)
    (hfc : ∀ t, hasChildFn t = !t.children.isEmpty) (l : List DomTree) :
    childNodesLoop valid hasChildFn l = bySiblingLoop valid l := by
  suffices H : ∀ (n : Nat) (l : List DomTree), sizeOf l ≤ n →
      childNodesLoop valid hasChildFn l = bySiblingLoop valid l from
    H (sizeOf l) l (le_refl _)
  intro n
  induction n with
  | zero =>
    intro l hl
    cases l with
    | nil => rw [childNodesLoop, bySiblingLoop]
    | cons c rest => simp at hl
  | succ n ih =>
    intro l hl
    cases l with
    | nil => rw [childNodesLoop, bySiblingLoop]
    | cons c rest =>
      simp at hl
      have hrest : sizeOf rest ≤ n := by omega
      have hchildren : sizeOf c.children ≤ n := by
        have := DomTree.sizeOf_children_lt c; omega
      rw [childNodesLoop, bySiblingLoop, hfc c, ih rest hrest,
        ih c.children hchildren]

/-- Pre-order list of all strict descendants of the nodes of a list, in
document order. -/
def preorderList : List DomTree → List DomTree
  | [] => []
  | c :: rest => c :: (preorderList c.children ++ preorderList rest)
termination_by l => sizeOf l
decreasing_by
  all_goals
    (have h := DomTree.sizeOf_children_lt c
     simp only [List.cons.sizeOf_spec]
     omega)

/-- The host capabilities probed by getAllComments. -/
structure GacEnv where
  hasCreateTreeWalker : Bool
  containerHasFirstChild : Bool
  containerHasNextSibling : Bool
  containerChildNodesTruthy : Bool
  containerHasChildNodesMethod : Bool
deriving DecidableEq

/-- byTreeWalker: if document.createTreeWalker exists, the TreeWalker
yields the matching Comment descendants of the container in document
order; otherwise null. -/
def byTreeWalker (env : GacEnv) (valid : DomTree → Bool)
    (container : DomTree) : Option (List DomTree) :=
  if env.hasCreateTreeWalker then
    some ((preorderList container.children).filter valid)
  else none

/-- bySibling: requires firstChild and nextSibling on the container. -/
def bySibling (env : GacEnv) (valid : DomTree → Bool)
    (container : DomTree) : Option (List DomTree) :=
  if env.containerHasFirstChild && env.containerHasNextSibling then
    some (bySiblingTraversal valid container)
  else none

/-- byChildNodes: requires a truthy childNodes on the container; the
hasChildFn closure uses hasChildNodes() when available, else the length
test. -/
def byChildNodes (env : GacEnv) (valid : DomTree → Bool)
    (container : DomTree) : Option (List DomTree) :=
  if env.containerChildNodesTruthy then
    some (childNodesTraversal valid
      (if env.containerHasChildNodesMethod then hasChildNodesMethod
       else childNodesLengthTest) container)
  else none

/-- tryMethods: byTreeWalker, bySibling, byChildNodes in order; a
ReferenceError when all three return null. -/
def tryMethods (env : GacEnv) (valid : DomTree → Bool)
    (container : DomTree) : Except JsError (List DomTree) :=
  match byTreeWalker env valid container with
  | some r => Except.ok r
  | none =>
    match bySibling env valid container with
    | some r => Except.ok r
    | none =>
      match byChildNodes env valid container with
      | some r => Except.ok r
      | none => Except.error JsError.referenceError

/-- Whether a result is a normal return rather than a thrown error. -/
def isOkB : Except JsError (List DomTree) → Bool
  | .ok _ => true
  | .error _ => false

end GetAllComments

open GetAllComments in
/-- C6: the two backup tree walks of getAllComments are equivalent: for
every finite document tree and every validity predicate, the recursive
sibling-pointer traversal and the index-based childNodes traversal (with
either hasChildFn variant) return the same list of matching nodes in the
same document order. -/
theorem sibling_and_childNodes_walks_equivalent (valid : DomTree → Bool)
    (container : DomTree) :
    childNodesTraversal valid hasChildNodesMethod container =
      bySiblingTraversal valid container ∧
    childNodesTraversal valid childNodesLengthTest container =
      bySiblingTraversal valid container := by
  constructor
  · exact childNodesLoop_eq_bySiblingLoop valid _ (fun t => rfl) _
  · exact childNodesLoop_eq_bySiblingLoop valid _ childNodesLengthTest_eq _

open GetAllComments in
/-- C7: getAllComments returns the result of the first supported strategy
in the fixed order TreeWalker, sibling traversal, childNodes traversal,
and throws a ReferenceError exactly when none of the three is
supported. -/
theorem getAllComments_first_supported_strategy (env : GacEnv)
    (valid : DomTree → Bool) (container : DomTree) :
    tryMethods env valid container =
      (match List.findSome? id
        [byTreeWalker env valid container, bySibling env valid container,
         byChildNodes env valid container] with
       | some r => Except.ok r
       | none => Except.error JsError.referenceError) ∧
    (byTreeWalker env valid container).isSome = env.hasCreateTreeWalker ∧
    (bySibling env valid container).isSome =
      (env.containerHasFirstChild && env.containerHasNextSibling) ∧
    (byChildNodes env valid container).isSome =
      env.containerChildNodesTruthy ∧
    isOkB (tryMethods env valid container) =
      (env.hasCreateTreeWalker ||
       (env.containerHasFirstChild && env.containerHasNextSibling) ||
       env.containerChildNodesTruthy) := by
  obtain ⟨e1, e2, e3, e4, e5⟩ := env
  cases e1 <;> cases e2 <;> cases e3 <;> cases e4 <;> cases e5 <;>
    simp [tryMethods, byTreeWalker, bySibling, byChildNodes, isOkB,
      List.findSome?]

namespace ReplaceNode

/-!
Embedding of the byDirectReplace decision tree of replaceNode
(src/replace/ReplaceNode.js).  Only the type tests that steer the
dispatch are needed: they are modelled as Boolean inputs.
-/

/-- The type tests byDirectReplace makes: on the replacement node, on the
original node, on the index argument and on the original parameter. -/
structure DirectReplaceArgs where
  replacementIsDocument : Bool
  origIsDocument : Bool
  origIsFragment : Bool
  origHasParent : Bool
  indexIsNumber : Bool
  originalIsArray : Bool
deriving DecidableEq

/-- The five case bodies of the byDirectReplace decision tree. -/
inductive DirectCase where
  | documentReplacement
  | fragmentOriginal
  | attachedOriginal
  | arrayEntryOriginal
  | otherUnattached
deriving DecidableEq

/-- Which case body of byDirectReplace executes, following the source
control flow: the Document-replacement block first (its body either
replaces the children of a Document original or throws), then the
DocumentFragment-original branch, the attached-original branch, the
unattached Array-entry branch, and the final fallthrough. -/
def byDirectReplaceCase (a : DirectReplaceArgs) : DirectCase :=
  if a.replacementIsDocument then .documentReplacement
  else if a.origIsFragment then .fragmentOriginal
  else if a.origHasParent then .attachedOriginal
  else if a.indexIsNumber && a.originalIsArray then .arrayEntryOriginal
  else .otherUnattached

/-- Whether byDirectReplace throws its TypeError: a Document replacement
meeting a non-Document original. -/
def byDirectReplaceThrows (a : DirectReplaceArgs) : Bool :=
  a.replacementIsDocument && !a.origIsDocument

/-- The descriptions of the five cases as predicates on the inputs, read
off the decision tree: each case is characterized by its own test
together with the negations of the tests before it. -/
def casePredOf : DirectCase → DirectReplaceArgs → Bool
  | .documentReplacement, a => a.replacementIsDocument
  | .fragmentOriginal, a => !a.replacementIsDocument && a.origIsFragment
  | .attachedOriginal, a =>
    !a.replacementIsDocument && !a.origIsFragment && a.origHasParent
  | .arrayEntryOriginal, a =>
    !a.replacementIsDocument && !a.origIsFragment && !a.origHasParent &&
      (a.indexIsNumber && a.originalIsArray)
  | .otherUnattached, a =>
    !a.replacementIsDocument && !a.origIsFragment && !a.origHasParent &&
      !(a.indexIsNumber && a.originalIsArray)

end ReplaceNode

open ReplaceNode in
/-- C4: on every byDirectReplace call, exactly one of the five case
descriptions of the decision tree holds (so the cases are mutually
exclusive and exhaustive), the executed case body is the one whose
description holds, and the TypeError can only arise inside the
Document-replacement case. -/
theorem byDirectReplace_cases_mutually_exclusive (a : DirectReplaceArgs) :
    ([casePredOf DirectCase.documentReplacement a,
      casePredOf DirectCase.fragmentOriginal a,
      casePredOf DirectCase.attachedOriginal a,
      casePredOf DirectCase.arrayEntryOriginal a,
      casePredOf DirectCase.otherUnattached a].count true = 1) ∧
    casePredOf (byDirectReplaceCase a) a = true ∧
    (byDirectReplaceThrows a &&
      !(casePredOf DirectCase.documentReplacement a)) = false := by
  obtain ⟨r, d, f, p, i, arr⟩ := a
  cases r <;> cases d <;> cases f <;> cases p <;> cases i <;> cases arr <;>
    decide

namespace ContainsCSSClass

/-!
Embedding of containsCSSClass (src/class/ContainsCSSClass.js).

The per-entry search (the classList.contains call, or the word-boundary
regular expression test against a fixed class string) is modelled as a
Boolean function on the entry.  The searchClass value after validation is
a list of class-name strings.
-/

/-- Loop of the single-match search methods: true at the first entry the
search function finds. -/
def singleMatchOneParam (searchFn : String → Bool) : List String → Bool
  | [] => false
  | classEntry :: rest =>
    if searchFn classEntry then true
    else singleMatchOneParam searchFn rest

/-- Loop of the all-match search methods: false at the first entry the
search function does not find. -/
def allMatchOneParam (searchFn : String → Bool) : List String → Bool
  | [] => true
  | classEntry :: rest =>
    if !searchFn classEntry then false
    else allMatchOneParam searchFn rest

/-- checkClassEntries: dispatch on the truthiness of singleMatch. -/
def checkClassEntries (singleMatch : Bool) (searchFn : String → Bool)
    (searchClass : List String) : Bool :=
  if singleMatch then singleMatchOneParam searchFn searchClass
  else allMatchOneParam searchFn searchClass

/-- The write to singleMatch inside checkParameters: a defined argument
is overwritten with false, an undefined one stays undefined.  The
argument is an Option carrying the truthiness of a defined value. -/
def checkParametersSingleMatch : Option Bool → Option Bool
  | none => none
  | some _ => some false

/-- Truthiness of the possibly-undefined singleMatch variable. -/
def truthy : Option Bool → Bool
  | none => false
  | some b => b

/-- The search outcome of containsCSSClass, as a function of the
per-entry search function, the validated class list, and the raw
singleMatch argument. -/
def containsResult (searchFn : String → Bool) (searchClass : List String)
    (singleMatchArg : Option Bool) : Bool :=
  checkClassEntries (truthy (checkParametersSingleMatch singleMatchArg))
    searchFn searchClass

end ContainsCSSClass

open ContainsCSSClass in
/-- C8: the result of containsCSSClass is independent of the singleMatch
argument: two invocations that agree on the element and on searchClass
but differ in singleMatch (undefined, truthy or falsy) return the same
Boolean, and that value is the all-entries-must-be-found result. -/
theorem containsCSSClass_independent_of_singleMatch
    (searchFn : String → Bool) (searchClass : List String)
    (sm1 sm2 : Option Bool) :
    containsResult searchFn searchClass sm1 =
      containsResult searchFn searchClass sm2 ∧
    containsResult searchFn searchClass sm1 =
      allMatchOneParam searchFn searchClass := by
  have h : ∀ sm : Option Bool,
      containsResult searchFn searchClass sm =
        allMatchOneParam searchFn searchClass := by
    intro sm
    cases sm <;> rfl
  exact ⟨(h sm1).trans (h sm2).symm, h sm1⟩

namespace ArrayAt

/-- A JavaScript number after Number() conversion: NaN or a finite
value, modelled as a rational. -/
inductive JSNumber where
  | nan
  | num (q : ℚ)

/-- checkIndex: validates and resolves the index, mirroring the source.
The no-argument or NaN case defaults to index 0 when length is truthy; a
nonnegative index must be below length and is floored; a negative index
is ceiled, offset from the end, and must then be nonnegative. -/
def checkIndex (len : Nat) (parentArgLen : Nat) (index : JSNumber) :
    Option Nat :=
  match index with
  | .nan => if len ≠ 0 then some 0 else none
  | .num q =>
    if parentArgLen = 0 then
      if len ≠ 0 then some 0 else none
    else if 0 ≤ q then
      if q < (len : ℚ) then some ⌊q⌋.toNat else none
    else
      let k : ℤ := (len : ℤ) + ⌈q⌉
      if 0 ≤ k then some k.toNat else none

/-- arrayAtPolyfill on a genuine Array: checkTargetObj passes (an Array
is neither undefined nor null and its length is a number), so the result
is the entry at the checked index, or undefined. -/
def arrayAtPolyfill {V : Type} (targetObj : List V) (parentArgLen : Nat)
    (index : JSNumber) : Option V :=
  match checkIndex targetObj.length parentArgLen index with
  | some k => targetObj.get? k
  | none => none

/-- The at() method installed on Array.prototype by the polyfill: it
forwards this, arguments.length and the index; an absent argument reaches
Number() as undefined and becomes NaN. -/
def atInstalled {V : Type} (arr : List V) (arg : Option JSNumber) : Option V :=
  match arg with
  | some j => arrayAtPolyfill arr 1 j
  | none => arrayAtPolyfill arr 0 .nan

/-- Integer truncation toward zero of a number, as the standard
ToIntegerOrInfinity operation computes it; NaN maps to 0. -/
def jsTrunc : JSNumber → ℤ
  | .nan => 0
  | .num q => if 0 ≤ q then ⌊q⌋ else ⌈q⌉

/-- Reference definition written from the words of the standard
Array.prototype.at: the element at the integer-truncated index, counting
back from the end of the array when the index is negative, undefined when
the resulting index references no existing element, and index 0 when the
argument is absent. -/
def arrayAtStandardRef {V : Type} (arr : List V) (arg : Option JSNumber) :
    Option V :=
  let rel : ℤ := match arg with
    | none => 0
    | some j => jsTrunc j
  let k : ℤ := if 0 ≤ rel then rel else (arr.length : ℤ) + rel
  if 0 ≤ k ∧ k < (arr.length : ℤ) then arr.get? k.toNat else none

end ArrayAt

open ArrayAt in
/-- C3 counterexample: on the array [10, 20] with index -0.5 the
installed polyfill returns undefined while the standard reference
returns the element at index 0, so the claimed agreement fails. -/
theorem arrayAt_polyfill_counterexample :
    atInstalled [10, 20] (some (JSNumber.num (-1/2))) = none ∧
    arrayAtStandardRef [10, 20] (some (JSNumber.num (-1/2))) = some 10 ∧
    atInstalled [10, 20] (some (JSNumber.num (-1/2))) ≠
      arrayAtStandardRef [10, 20] (some (JSNumber.num (-1/2))) := by
  have hneg : ¬ ((0:ℚ) ≤ -1/2) := by norm_num
  have hceil : ⌈(-1/2 : ℚ)⌉ = 0 := by norm_num
  refine ⟨?_, ?_, ?_⟩
  · simp [atInstalled, arrayAtPolyfill, checkIndex, hneg, hceil]
  · simp [arrayAtStandardRef, jsTrunc, hneg, hceil]
  · simp [atInstalled, arrayAtPolyfill, checkIndex, arrayAtStandardRef,
      jsTrunc, hneg, hceil]

open ArrayAt in
/-- C3 amended: the installed at() agrees with the standard reference for
every index argument that is absent, NaN, or whose numeric value q
satisfies q ≤ -1 or 0 ≤ q, that is, for every index not strictly between
-1 and 0. -/
theorem arrayAt_polyfill_matches_standard {V : Type} (arr : List V)
    (arg : Option JSNumber)
    (h : ∀ q : ℚ, arg = some (JSNumber.num q) → q ≤ -1 ∨ 0 ≤ q) :
    atInstalled arr arg = arrayAtStandardRef arr arg := by
  cases arg with
  | none =>
    show (match checkIndex arr.length 0 JSNumber.nan with
      | some k => arr.get? k | none => none) = _
    cases arr with
    | nil => simp [checkIndex, arrayAtStandardRef]
    | cons a rest => simp [checkIndex, arrayAtStandardRef]
  | some j =>
    cases j with
    | nan =>
      cases arr with
      | nil => simp [atInstalled, arrayAtPolyfill, checkIndex,
          arrayAtStandardRef, jsTrunc]
      | cons a rest => simp [atInstalled, arrayAtPolyfill, checkIndex,
          arrayAtStandardRef, jsTrunc]
    | num q =>
      rcases h q rfl with hq | hq
      · -- q ≤ -1
        have hq0 : ¬ ((0:ℚ) ≤ q) := by
          intro hc
          linarith
        have hceil : ⌈q⌉ ≤ -1 := by
          rw [Int.ceil_le]
          exact_mod_cast hq
        simp only [atInstalled, arrayAtPolyfill, checkIndex,
          arrayAtStandardRef, jsTrunc, hq0, if_neg, one_ne_zero]
        have hrel : ¬ ((0:ℤ) ≤ ⌈q⌉) := by omega
        simp only [hrel, if_neg, if_false]
        set k : ℤ := (arr.length : ℤ) + ⌈q⌉ with hk
        have hklt : k < (arr.length : ℤ) := by omega
        by_cases hk0 : (0:ℤ) ≤ k
        · simp [hk0, hklt]
        · simp [hk0]
      · -- 0 ≤ q
        have hfl : (0:ℤ) ≤ ⌊q⌋ := Int.floor_nonneg.2 hq
        simp only [atInstalled, arrayAtPolyfill, checkIndex,
          arrayAtStandardRef, jsTrunc, hq, if_pos, one_ne_zero]
        by_cases hlt : q < (arr.length : ℚ)
        · have hfl2 : ⌊q⌋ < (arr.length : ℤ) := by
            rw [Int.floor_lt]
            push_cast
            exact hlt
          simp [hlt, hfl, hfl2]
        · have hfl2 : ¬ (⌊q⌋ < (arr.length : ℤ)) := by
            rw [Int.floor_lt]
            push_cast
            exact hlt
          simp [hlt, hfl, hfl2]

open ArrayAt in
/-- Witness for the amended C3 at the in-range fractional index 1.5. -/
theorem arrayAt_polyfill_matches_standard_witness :
    atInstalled [10, 20] (some (JSNumber.num (3/2))) =
      arrayAtStandardRef [10, 20] (some (JSNumber.num (3/2))) := by
  apply arrayAt_polyfill_matches_standard
  intro q hq
  right
  simp only [Option.some.injEq, JSNumber.num.injEq] at hq
  rw [← hq]
  norm_num

namespace AddCSSClass

/-!
Embedding of the pieces of addCSSClass (src/class/AddCSSClass.js) that
the idempotence claim is about: the byClassNameAdd method, the
addEachClass loop and the per-element count.  The class attribute value
is the className string; the regular expressions of the source are
implemented directly.
-/

/-- JS word characters, the \w class: ASCII letters, digits and the
underscore. -/
def isJsWordChar (c : Char) : Bool :=
  c.isAlphanum || c == '_'

/-- The characters of the [whitespace, U+FEFF, U+00A0] class used by the
source patterns. -/
def isJsSpace (c : Char) : Bool :=
  c.isWhitespace || c == '\uFEFF' || c == '\u00A0'

/-- A \b word boundary between two adjacent positions: exactly one side
is a word character; the outside of the string is a non-word side. -/
def boundaryAt (left right : Option Char) : Bool :=
  (match left with | none => false | some c => isJsWordChar c) !=
  (match right with | none => false | some c => isJsWordChar c)

/-- Whether the word-bounded pattern matches at the current position:
the pattern is a prefix of the remaining characters and both of its ends
sit on word boundaries. -/
def wbMatchAt (pat : List Char) (prev : Option Char) (rest : List Char) :
    Bool :=
  pat.isPrefixOf rest &&
  boundaryAt prev pat.head? &&
  boundaryAt pat.getLast? (rest.drop pat.length).head?

/-- Search every position of the string for a word-bounded occurrence of
the pattern. -/
def wbSearch (pat : List Char) : Option Char → List Char → Bool
  | prev, [] => wbMatchAt pat prev []
  | prev, c :: r => wbMatchAt pat prev (c :: r) || wbSearch pat (some c) r

/-- The test() of the RegExp built from a backslash-b, the class name,
and a backslash-b, applied to a string. -/
def jsWordBoundaryTest (cssClass s : String) : Bool :=
  wbSearch cssClass.data none s.data

/-- The trailing-whitespace test of the source. -/
def endsWithJsSpace (s : String) : Bool :=
  match s.data.getLast? with
  | none => false
  | some c => isJsSpace c

/-- byClassNameAdd: when the word-boundary search finds the class in
className nothing is added and false is returned; otherwise the class is
appended, with a separating space unless className already ends in
whitespace, and true is returned.  Returns the flag and the new
className. -/
def byClassNameAdd (className cssClass : String) : Bool × String :=
  if jsWordBoundaryTest cssClass className then (false, className)
  else if endsWithJsSpace className then (true, className ++ cssClass)
  else (true, className ++ " " ++ cssClass)

/-- addEachClass specialised to byClassNameAdd, without the optional
whitespace cleanup: fold over the validated newClass entries, counting
the entries that were added. -/
def addEachClassViaClassName : String → List String → Nat × String
  | className, [] => (0, className)
  | className, cssClass :: rest =>
    let r := byClassNameAdd className cssClass
    let rRest := addEachClassViaClassName r.2 rest
    ((if r.1 then 1 else 0) + rRest.1, rRest.2)

/-- The count addCSSClass returns for a single Element via the className
method: 1 when at least one entry was added, else 0. -/
def addCSSClassViaClassNameCount (className : String)
    (newClass : List String) : Nat :=
  if (addEachClassViaClassName className newClass).1 ≠ 0 then 1 else 0

/-- Helper splitting a character list into whitespace-separated
tokens. -/
def classTokensAux (cur : List Char) : List Char → List (List Char)
  | [] => if cur.isEmpty then [] else [cur.reverse]
  | c :: r =>
    if isJsSpace c then
      if cur.isEmpty then classTokensAux [] r
      else cur.reverse :: classTokensAux [] r
    else classTokensAux (c :: cur) r

/-- The set of class names of a class attribute value: its
whitespace-separated tokens. -/
def classTokens (s : String) : List String :=
  (classTokensAux [] s.data).map (fun l => String.mk l)

end AddCSSClass

open AddCSSClass in
/-- C9 evaluated at the failing input: the class attribute "-foo"
already contains the class name "-foo", yet byClassNameAdd does not find
it (no \b boundary exists next to the leading hyphen), appends a
duplicate and reports an addition, so the element contributes 1 instead
of 0 and a second identical addCSSClass call returns 1. -/
theorem addCSSClass_not_idempotent_on_hyphen_class :
    classTokens "-foo" = ["-foo"] ∧
    byClassNameAdd "-foo" "-foo" = (true, "-foo -foo") ∧
    addEachClassViaClassName "-foo" ["-foo"] = (1, "-foo -foo") ∧
    addCSSClassViaClassNameCount "-foo" ["-foo"] = 1 := by
  refine ⟨?_, ?_, ?_, ?_⟩ <;> decide
